import Mathlib

/-
Verification development for the auction-monitor repository (auc2.py, auction.py).

The Python sources are shallowly embedded below:
pure string manipulation is modelled on Lean strings (character lists),
network providers (Nominatim, Google geocoding, OSRM routing) are oracle
parameters of type String/coordinates to Option results (an exception, a
timeout and an empty response are all collapsed to none, exactly as the
source collapses them via try/except-pass), the JSON location cache is an
association list, the pandas DataFrame is a column list plus rows of cell
values, and the floating-point trigonometry of calculate_direction is
modelled over the real numbers.
-/

namespace Auc2

/-- Python str.strip(): remove leading and trailing whitespace (auc2.py line 50, 60). -/
def pyStrip (s : String) : String :=
  ⟨((s.toList.dropWhile Char.isWhitespace).reverse.dropWhile Char.isWhitespace).reverse⟩

/-- Python str.lower() (ASCII, as used on the address strings). -/
def lowerStr (s : String) : String :=
  ⟨s.toList.map Char.toLower⟩

/-- Python str.startswith(pre). -/
def startsWithStr (s pre : String) : Bool :=
  pre.toList.isPrefixOf s.toList

/-- Python s[n:] (drop the first n characters). -/
def dropStr (s : String) (n : Nat) : String :=
  ⟨s.toList.drop n⟩

/-- Python len(s) for the ASCII phrases used here. -/
def strLen (s : String) : Nat :=
  s.toList.length

/-- Python str.lstrip(", "): drop leading commas and spaces (auc2.py line 54). -/
def lstripCommaSpace (s : String) : String :=
  ⟨s.toList.dropWhile (fun c => c == ',' || c == ' ')⟩

/-- Python `pat in s` substring test. -/
def containsSub (s pat : String) : Bool :=
  (List.range (s.toList.length + 1)).any (fun i => pat.toList.isPrefixOf (s.toList.drop i))

/-- The ambiguous placeholder phrases of auc2.py line 48. -/
def ambiguous_words : List String :=
  ["address coming", "tba", "to be announced", "coming soon", "unknown", "n/a", "not available"]

/-- strip_ambiguous_prefix of auc2.py lines 49-56: trim, then if the lowered string
starts with an ambiguous phrase, drop the phrase and any following commas/spaces.
(The Python loop returns at the first matching phrase, which is List.find? here.
The name avoids the Python one for syntactic reasons only.) -/
def stripAmbiguousWord (addr : String) : String :=
  let addr_strip := pyStrip addr
  match ambiguous_words.find? (fun w => startsWithStr (lowerStr addr_strip) w) with
  | some w => lstripCommaSpace (dropStr addr_strip (strLen w))
  | none => addr_strip

/-- A cached geocode value: a coordinate pair, or the [None, None] sentinel. -/
inductive GeoVal where
  | coords (lat lng : ℚ)
  | sentinel
deriving DecidableEq

/-- A cached route value for one reference city:
[minutes, km, direction] or the [None, None, None] sentinel. -/
inductive RouteVal where
  | vals (minutes : ℤ) (km : ℚ) (dir : String)
  | sentinel
deriving DecidableEq

/-- One entry of the combined JSON cache: an optional "geocode" field and a
"route" sub-dictionary keyed by the capitalized reference-city name.
(An absent "route" key and an empty route sub-dictionary behave identically
in the source, so both are the empty list here.) -/
structure CacheEntry where
  geocode : Option GeoVal
  route : List (String × RouteVal)
deriving DecidableEq

/-- The combined cache: a JSON object, i.e. an ordered association list keyed
by the verbatim address string. -/
abbrev Cache := List (String × CacheEntry)

/-- Dictionary lookup in the combined cache. -/
def lookupEntry (c : Cache) (k : String) : Option CacheEntry :=
  (c.find? (fun p => p.1 == k)).map (fun p => p.2)

/-- The "geocode" field of the entry for a key: some value when both the key
and the field exist (lines 73-74 test exactly this). -/
def geoOf (c : Cache) (k : String) : Option GeoVal :=
  (lookupEntry c k).bind (fun e => e.geocode)

/-- The cached route value for an address and a capitalized city
(line 139 tests exactly this nesting). -/
def routeOf (c : Cache) (k city : String) : Option RouteVal :=
  (lookupEntry c k).bind
    (fun e => (e.route.find? (fun q => q.1 == city)).map (fun q => q.2))

/-- Lines 64-66 / 85-87 / 130-132 of auc2.py:
if the key is absent insert an empty entry, then set its "geocode" field.
(Python dict insertion appends at the end.) -/
def setGeo (c : Cache) (k : String) (v : GeoVal) : Cache :=
  if (c.find? (fun p => p.1 == k)).isSome then
    c.map (fun p => if p.1 == k then (p.1, { p.2 with geocode := some v }) else p)
  else
    c ++ [(k, { geocode := some v, route := [] })]

/-- Lines 155-159 / 163-167 of auc2.py: ensure the entry and its "route"
sub-dictionary exist, then set the entry for the given city. -/
def setRouteCity (c : Cache) (k city : String) (v : RouteVal) : Cache :=
  if (c.find? (fun p => p.1 == k)).isSome then
    c.map (fun p =>
      if p.1 == k then
        (p.1, { p.2 with route :=
          if (p.2.route.find? (fun q => q.1 == city)).isSome then
            p.2.route.map (fun q => if q.1 == city then (q.1, v) else q)
          else
            p.2.route ++ [(city, v)] })
      else p)
  else
    c ++ [(k, { geocode := none, route := [(city, v)] })]

/-- A regex word character for the ordinal-suffix pattern. -/
def isWordChar (c : Char) : Bool :=
  c.isAlphanum || c == '_'

/-- A two-character ordinal suffix st/nd/rd/th, case-insensitive (re.IGNORECASE). -/
def ordSuffix (a b : Char) : Bool :=
  (a.toLower == 's' && b.toLower == 't') || (a.toLower == 'n' && b.toLower == 'd') ||
    (a.toLower == 'r' && b.toLower == 'd') || (a.toLower == 't' && b.toLower == 'h')

/-- Character-level embedding of re.sub on the pattern which removes an ordinal
suffix st/nd/rd/th standing right after a digit run that begins at a word
boundary and is itself followed by a word boundary (auc2.py lines 94-96).
`prev` is the previous character of the original string (none at the start) and
`runOk` records whether the scanner is inside a digit run that began at a word
boundary. -/
def remOrd : Option Char → Bool → List Char → List Char
  | _, _, [] => []
  | _, _, [c] => [c]
  | prev, runOk, c :: d :: rest =>
    let pDigit := match prev with | some p => p.isDigit | none => false
    let pWord := match prev with | some p => isWordChar p | none => false
    if c.isDigit then
      c :: remOrd (some c) (if pDigit then runOk else !pWord) (d :: rest)
    else if pDigit && runOk && ordSuffix c d &&
        (match rest with | [] => true | e :: _ => !(isWordChar e)) then
      remOrd (some d) false rest
    else
      c :: remOrd (some c) false (d :: rest)

/-- remove_ordinal_suffixes of auc2.py lines 94-96. -/
def remove_ordinal_suffixes (s : String) : String :=
  ⟨remOrd none false s.toList⟩

/-- A call issued to a geocoding provider, with the query string sent. -/
inductive GeoCall where
  | nominatim (q : String)
  | google (q : String)
deriving DecidableEq

/-- Result of one call to geocode_address: the returned pair
(none models the Python (None, None)), the cache afterwards, and the provider
calls issued, in order. -/
structure GeoResult where
  res : Option (ℚ × ℚ)
  cache : Cache
  calls : List GeoCall
deriving DecidableEq

/-- geocode_address of auc2.py lines 46-133.  The two providers are oracles;
none covers a network error, a timeout, a non-2xx status and an empty result
list alike, exactly as the try/except-pass blocks do. -/
def geocode_address (address : Option String)
    (nominatim google : String → Option (ℚ × ℚ)) (geocode_cache : Cache) : GeoResult :=
  -- line 59: cache_key = address or ""  (None and "" both give "")
  let cache_key := match address with | none => "" | some s => s
  let checked_address := pyStrip cache_key
  let cleaned_address := stripAmbiguousWord checked_address
  -- lines 63-67: empty or still-ambiguous cleaned address: cache the sentinel
  -- under the original key and return (None, None) with no provider call
  if cleaned_address == "" ||
      ambiguous_words.any (fun w => containsSub (lowerStr cleaned_address) w) then
    { res := none, cache := setGeo geocode_cache cache_key .sentinel, calls := [] }
  else
    let address_to_geocode := cleaned_address
    -- lines 73-77: only a cached non-sentinel value short-circuits;
    -- a cached sentinel falls through to recalculate
    match geoOf geocode_cache cache_key with
    | some (.coords lat lng) =>
      { res := some (lat, lng), cache := geocode_cache, calls := [] }
    | _ =>
      -- lines 78-90: Nominatim on the cleaned address
      match nominatim address_to_geocode with
      | some (lat, lng) =>
        { res := some (lat, lng),
          cache := setGeo geocode_cache cache_key (.coords lat lng),
          calls := [.nominatim address_to_geocode] }
      | none =>
        -- lines 92-112: retry with ordinal suffixes removed, if that changed anything
        let simplified := remove_ordinal_suffixes address_to_geocode
        if simplified != address_to_geocode then
          match nominatim simplified with
          | some (lat, lng) =>
            { res := some (lat, lng),
              cache := setGeo geocode_cache cache_key (.coords lat lng),
              calls := [.nominatim address_to_geocode, .nominatim simplified] }
          | none =>
            -- lines 114-128: Google fallback, then the sentinel
            match google address_to_geocode with
            | some (lat, lng) =>
              { res := some (lat, lng),
                cache := setGeo geocode_cache cache_key (.coords lat lng),
                calls := [.nominatim address_to_geocode, .nominatim simplified,
                          .google address_to_geocode] }
            | none =>
              { res := none, cache := setGeo geocode_cache cache_key .sentinel,
                calls := [.nominatim address_to_geocode, .nominatim simplified,
                          .google address_to_geocode] }
        else
          match google address_to_geocode with
          | some (lat, lng) =>
            { res := some (lat, lng),
              cache := setGeo geocode_cache cache_key (.coords lat lng),
              calls := [.nominatim address_to_geocode, .google address_to_geocode] }
          | none =>
            { res := none, cache := setGeo geocode_cache cache_key .sentinel,
              calls := [.nominatim address_to_geocode, .google address_to_geocode] }

end Auc2

/-- A cell value of the persisted pandas table: a string, a number, a Python
bool, or a missing value (np.nan / NaN from reindexing).  Numeric cell
contents are opaque to the upsert logic, so integers suffice. -/
inductive Value where
  | str (s : String)
  | int (n : ℤ)
  | bool (b : Bool)
  | nan
deriving DecidableEq

/-- Association-list lookup used for Python dict access on a record. -/
def lookupRec : List (String × Value) → String → Option Value
  | [], _ => none
  | (k', v) :: rest, k => if k' = k then some v else lookupRec rest k

namespace Auc2

/-- Python str.capitalize(): first character uppercased, the rest lowercased
(auc2.py line 138). -/
def pyCapitalize (s : String) : String :=
  match s.toList with
  | [] => ""
  | c :: rest => ⟨c.toUpper :: rest.map Char.toLower⟩

/-- Python cache_key.rsplit("|", 1) followed by two-variable unpacking:
split at the last pipe; none models the ValueError raised when the key
contains no pipe. -/
def rsplitPipe (s : String) : Option (String × String) :=
  let rev := s.toList.reverse
  match rev.dropWhile (fun c => c != '|') with
  | [] => none
  | _ :: beforeRev => some (⟨beforeRev.reverse⟩, ⟨(rev.takeWhile (fun c => c != '|')).reverse⟩)

/-- Python int() truncation toward zero on a rational. -/
def ratTrunc (q : ℚ) : ℤ :=
  if 0 ≤ q then ⌊q⌋ else -⌊-q⌋

/-- Result of one call to calculate_driving_time_osrm: the returned triple
(none models (None, None, None)), the cache afterwards, and how many OSRM
requests were issued. -/
structure RouteResult where
  res : Option (ℤ × ℚ × String)
  cache : Cache
  osrmCalls : Nat
deriving DecidableEq

/-- calculate_driving_time_osrm of auc2.py lines 135-168.  The OSRM service is
an oracle returning (duration seconds, distance meters) or none for any
failure; the direction computation (floating-point trigonometry, modelled
separately over the reals) is passed in as calcDir.  The outer none models the
uncaught ValueError when cache_key has no pipe; every caller builds the key as
address + pipe + city. -/
def calculate_driving_time_osrm (origin_lat origin_lng dest_lat dest_lng : ℚ)
    (route_cache : Cache) (cache_key : String)
    (osrm : ℚ → ℚ → ℚ → ℚ → Option (ℚ × ℚ))
    (calcDir : ℚ → ℚ → ℚ → ℚ → String) : Option RouteResult :=
  match rsplitPipe cache_key with
  | none => none
  | some (address, city0) =>
    let city := pyCapitalize (pyStrip city0)
    -- lines 139-143: only a cached non-sentinel triple short-circuits;
    -- a cached sentinel falls through to recalculate
    match routeOf route_cache address city with
    | some (RouteVal.vals m k d) =>
      some { res := some (m, k, d), cache := route_cache, osrmCalls := 0 }
    | _ =>
      match osrm origin_lat origin_lng dest_lat dest_lng with
      | some (duration, distance) =>
        let duration_minutes := ratTrunc (duration / 60)
        let distance_km := distance / 1000
        let direction := calcDir origin_lat origin_lng dest_lat dest_lng
        some { res := some (duration_minutes, distance_km, direction),
               cache := setRouteCity route_cache address city
                          (.vals duration_minutes distance_km direction),
               osrmCalls := 1 }
      | none =>
        some { res := none, cache := setRouteCity route_cache address city .sentinel,
               osrmCalls := 1 }

/-- Outcome of parsing bidding_ends_at against the current wall clock
(auc2.py lines 656-674): the regex matched and the remaining time is this many
seconds, the regex did not match ("Unknown"), or an exception occurred
("ParseError"). -/
inductive Rem where
  | parsed (secs : ℤ)
  | noMatch
  | parseError
deriving DecidableEq

/-- remaining_str of auc2.py lines 663-674: for a positive remaining timedelta
the string "{hours}h {minutes}m" with hours = days * 24 + seconds // 3600
(timedelta semantics: days is the floor of seconds / 86400 and the second
component is the nonnegative remainder), else "Ended"; "Unknown" when the
regex fails and "ParseError" on an exception. -/
def remainingStr (r : Rem) : String :=
  match r with
  | .parsed s =>
    if 0 < s then
      let days := Int.ediv s 86400
      let secs := Int.emod s 86400
      let hours := days * 24 + Int.ediv secs 3600
      let minutes := Int.ediv (Int.emod secs 3600) 60
      toString hours ++ "h " ++ toString minutes ++ "m"
    else "Ended"
  | .noMatch => "Unknown"
  | .parseError => "ParseError"

/-- Python `'h' in remaining_str`. -/
def hasH (s : String) : Bool :=
  s.toList.contains 'h'

/-- Decimal digits to a natural number. -/
def digitsToNat (l : List Char) : Nat :=
  l.foldl (fun n c => n * 10 + (c.toNat - 48)) 0

/-- Python int(remaining_str.split('h')[0]) on the strings produced above:
the segment before the first 'h' is a plain decimal numeral (the hours
count, which is nonnegative whenever this is evaluated). -/
def hOf (s : String) : ℤ :=
  Int.ofNat (digitsToNat (s.toList.takeWhile (fun c => c != 'h')))

/-- Observable outcome of processing one item on one monitor pass:
the item's two persisted reporting cells afterwards
("reported within 12 hours", "reported within 1 hour"; none when the item is
still absent from the table), whether a Telegram notification was sent, and
whether the pass took the not-soon deferral branch (sleep and re-check the
same item). -/
structure StepOut where
  flags : Option (Value × Value)
  notified : Bool
  deferred : Bool
deriving DecidableEq

/-- One per-item monitor pass of run_auction_monitor (auc2.py lines 589-737),
restricted to the item's reporting state.  dfFlags is the pair of persisted
reporting cells for this item_url (none when the row does not exist yet) and
r is the parse outcome for bidding_ends_at.

Faithfulness notes traced from the source:
the freshly merged row (line 621, and line 596 in the concluded branch) is
built only from auction_info, item and details, none of which contains a
reporting column, so the membership tests of lines 651-654 are always false
and reported_12, reported_1 are always False; the concluded branch
(lines 594-619) sets both reporting columns to row.get(key, "") which is
always "" and overwrites the stored row with them; the update branch
(lines 723-727) writes only the keys present in the fresh row, so a reporting
cell is overwritten only when the corresponding flag fired on this pass, and a
new row (lines 728-735) gets NaN for an absent reporting column. -/
def itemStep (dfFlags : Option (Value × Value)) (concluded : Bool) (r : Rem) : StepOut :=
  if concluded then
    { flags := some (.str "", .str ""), notified := false, deferred := false }
  else
    let reported_12 := false
    let reported_1 := false
    let remaining_str := remainingStr r
    let active := remaining_str != "Ended" && remaining_str != "Unknown" &&
      remaining_str != "ParseError"
    -- lines 676-683: not-soon deferral, no upsert, re-check the same item
    if active && hasH remaining_str && decide (48 ≤ hOf remaining_str) then
      { flags := dfFlags, notified := false, deferred := true }
    else
      -- lines 685-698: the reporting decision
      let fires12 := active && !reported_12 && hasH remaining_str &&
        decide (hOf remaining_str < 48)
      let fires1 := active && reported_12 && !reported_1 && hasH remaining_str &&
        decide (hOf remaining_str < 1)
      let should_report := fires12 || fires1
      let upd12 : Option Value := if fires12 then some (.bool true) else none
      let upd1 : Option Value := if fires1 then some (.bool true) else none
      let flags' := match dfFlags with
        | some (a, b) => some (upd12.getD a, upd1.getD b)
        | none => some (upd12.getD .nan, upd1.getD .nan)
      { flags := flags', notified := should_report, deferred := false }

/-- Iterate monitor passes over one item, counting the notifications sent. -/
def runPasses (init : Option (Value × Value)) (passes : List (Bool × Rem)) :
    Option (Value × Value) × Nat :=
  passes.foldl (fun acc p =>
    let out := itemStep acc.1 p.1 p.2
    (out.flags, acc.2 + (if out.notified then 1 else 0))) (init, 0)

end Auc2

namespace Auc2

/-- The persisted Excel table as pandas holds it: an ordered column list and
rows of cells aligned with the columns (a Column absent from a row reads as
NaN). -/
structure PTable where
  cols : List String
  rows : List (List Value)
deriving DecidableEq

/-- Index of the first occurrence of a column name. -/
def idxOf (l : List String) (k : String) : Option Nat :=
  match l with
  | [] => none
  | c :: cs => if c = k then some 0 else (idxOf cs k).map (fun i => i + 1)

/-- Keys of a record dict, in insertion order. -/
def recKeys (rec : List (String × Value)) : List String :=
  rec.map (fun kv => kv.1)

/-- The mask df["item_url"] == item_url applied to one row (line 727); the
none branch is unreachable in the source because the update path is guarded by
membership in item_url_set, which is empty when the column is missing
(line 580). -/
def matchesUrl (cols : List String) (u : Value) (r : List Value) : Bool :=
  match idxOf cols "item_url" with
  | some j => decide (r.getD j .nan = u)
  | none => false

/-- item_url in item_url_set (lines 580 and 723): the set is
set(df["item_url"]) when that column exists, else empty. -/
def hasUrl (t : PTable) (u : Value) : Bool :=
  t.rows.any (matchesUrl t.cols u)

/-- pandas is_numeric_dtype for a column, modelled as: the column exists and
every cell is a number, a bool or a missing value (pandas treats bool dtype as
numeric; a column holding any string is object dtype). -/
def isNumericCol (t : PTable) (k : String) : Bool :=
  match idxOf t.cols k with
  | some i => t.rows.all (fun r =>
      match r.getD i .nan with
      | .int _ => true
      | .bool _ => true
      | .nan => true
      | _ => false)
  | none => false

/-- clean_row_types of auc2.py lines 715-722: for every column of df that the
record also carries, replace an empty-string value by np.nan when the column
dtype is numeric. -/
def clean_row_types (rec : List (String × Value)) (t : PTable) : List (String × Value) :=
  rec.map (fun kv =>
    if kv.1 ∈ t.cols ∧ isNumericCol t kv.1 ∧ kv.2 = Value.str "" then (kv.1, Value.nan)
    else kv)

/-- Lines 724-727: for each key of the cleaned record that is a column of df,
assign the value to every row whose item_url cell equals item_url (the mask is
re-evaluated at each assignment, on the current rows). -/
def updateMatching (t : PTable) (u : Value) (rec : List (String × Value)) : PTable :=
  { t with rows := rec.foldl (fun rows kv =>
      match idxOf t.cols kv.1 with
      | some i => rows.map (fun r => if matchesUrl t.cols u r then r.set i kv.2 else r)
      | none => rows) t.rows }

/-- The per-item upsert of run_auction_monitor, auc2.py lines 713-735:
update the matching row in place when item_url is already present
(item_url = row.get("item_url", ""), line 640), else clean the record against
the existing dtypes (unless df is empty) and append it via pd.concat, which
extends the column list with the record keys not yet present, pads the old
rows with NaN in the new columns, and reindexes the new row along the combined
columns. -/
def upsert (t : PTable) (rec : List (String × Value)) : PTable :=
  let item_url := (lookupRec rec "item_url").getD (Value.str "")
  if hasUrl t item_url then
    updateMatching t item_url (clean_row_types rec t)
  else
    let cleaned := if t.rows.isEmpty || t.cols.isEmpty then rec else clean_row_types rec t
    let extra := (recKeys cleaned).filter (fun k => decide (k ∉ t.cols))
    let newCols := t.cols ++ extra
    let newRow := newCols.map (fun c => (lookupRec cleaned c).getD Value.nan)
    { cols := newCols,
      rows := t.rows.map (fun r => r ++ List.replicate extra.length Value.nan) ++ [newRow] }

/-- Proof-layer view of one row under updateMatching: the per-row fold of the
masked assignments of lines 725-727. -/
def rowUpd (cols : List String) (u : Value) (rec : List (String × Value))
    (r : List Value) : List Value :=
  rec.foldl (fun r kv =>
    match idxOf cols kv.1 with
    | some i => if matchesUrl cols u r then r.set i kv.2 else r
    | none => r) r

/-- Proof-layer view: the same assignments with the mask removed. -/
def applyWrites (cols : List String) (rec : List (String × Value))
    (r : List Value) : List Value :=
  rec.foldl (fun r kv =>
    match idxOf cols kv.1 with
    | some i => r.set i kv.2
    | none => r) r

/-- Indices actually written by a record against a column list. -/
def writeIdxs (cols : List String) (rec : List (String × Value)) : List Nat :=
  rec.filterMap (fun kv => idxOf cols kv.1)

end Auc2

namespace Auction

/-- A property record / table row of auction.py: a Python dict. -/
abbrev Row := List (String × Value)

/-- Python dict assignment prop[k] = v: replace the value in place if the key
exists, else append the key (auction.py line 677). -/
def setKey : Row → String → Value → Row
  | [], k, v => [(k, v)]
  | (k', v') :: rest, k, v =>
    if k' = k then (k, v) :: rest else (k', v') :: setKey rest k v

/-- The category filter existing_df[existing_df[col] == cat] applied to one
row: the cell equals the category string (a NaN cell or an absent column
compares unequal, as in pandas). -/
def isCat (cat : String) (r : Row) : Bool :=
  decide (lookupRec r "Property Category" = some (Value.str cat))

/-- save_properties_to_excel of auction.py lines 671-711, returning the table
written to Excel (none when new_properties is empty: the function returns
False without saving).  The existing table is its list of rows; the column
membership test 'Property Category' in existing_df.columns holds when any row
carries the key.  The intermediate emptiness branches of lines 692-700 are
plain list appends here, since concatenation with an empty frame is the other
operand. -/
def save_properties_to_excel (new_properties : List Row) (existing_df : List Row)
    (property_category : String) : Option (List Row) :=
  if new_properties.isEmpty then none
  else
    let tagged := new_properties.map (fun p => setKey p "Property Category"
      (Value.str property_category))
    if existing_df.isEmpty then some tagged
    else
      let hasCol := existing_df.any (fun r => (lookupRec r "Property Category").isSome)
      let same_category := if hasCol then existing_df.filter (isCat property_category) else []
      let other_categories :=
        if hasCol then existing_df.filter (fun r => !(isCat property_category r))
        else existing_df
      some (tagged ++ same_category ++ other_categories)

end Auction

noncomputable section DirectionModel

open Real

/-- math.radians. -/
def deg2rad (d : ℝ) : ℝ := d * Real.pi / 180

/-- Python float modulo for the normalizations (deg + 360) % 360 used by both
direction functions (the divisor is positive). -/
def pymod (a b : ℝ) : ℝ := a - b * ⌊a / b⌋

/-- math.atan2(y, x): the angle of the point (x, y) in (-pi, pi]. -/
def atan2 (y x : ℝ) : ℝ :=
  if 0 < x then Real.arctan (y / x)
  else if x < 0 then
    (if 0 ≤ y then Real.arctan (y / x) + Real.pi else Real.arctan (y / x) - Real.pi)
  else if 0 < y then Real.pi / 2
  else if y < 0 then -(Real.pi / 2)
  else 0

/-- The normalized initial great-circle bearing in degrees, computed
identically by calculate_direction in auc2.py lines 170-178 and in auction.py
lines 201-218: y = sin(dlng) cos(lat2), x = cos(lat1) sin(lat2) -
sin(lat1) cos(lat2) cos(dlng), bearing = (degrees(atan2(y, x)) + 360) % 360. -/
def bearing_deg (origin_lat origin_lng dest_lat dest_lng : ℝ) : ℝ :=
  let lat1 := deg2rad origin_lat
  let lat2 := deg2rad dest_lat
  let delta_lng := deg2rad (dest_lng - origin_lng)
  let y := Real.sin delta_lng * Real.cos lat2
  let x := Real.cos lat1 * Real.sin lat2 - Real.sin lat1 * Real.cos lat2 * Real.cos delta_lng
  pymod (atan2 y x * 180 / Real.pi + 360) 360

/-- The 8 compass labels of auc2.py line 179. -/
def dirs8 : List String := ["N", "NE", "E", "SE", "S", "SW", "W", "NW"]

/-- calculate_direction of auc2.py lines 170-181:
index (int((bearing + 22.5) // 45)) % 8 into the label list (the int()
truncation is the identity there because the normalized bearing is
nonnegative; the default "" of getD is unreachable since the index is
always below 8). -/
def auc2_calculate_direction (origin_lat origin_lng dest_lat dest_lng : ℝ) : String :=
  dirs8.getD
    ((⌊(bearing_deg origin_lat origin_lng dest_lat dest_lng + 22.5) / 45⌋ % 8).toNat) ""

/-- calculate_direction of auction.py lines 201-245: the same bearing,
quantized by explicit threshold comparisons.  (The try/except fallback
returning the string N/A cannot trigger in the real-valued model.) -/
def auction_calculate_direction (origin_lat origin_lng dest_lat dest_lng : ℝ) : String :=
  let bd := bearing_deg origin_lat origin_lng dest_lat dest_lng
  if 337.5 ≤ bd ∨ bd < 22.5 then "North"
  else if bd < 67.5 then "Northeast"
  else if bd < 112.5 then "East"
  else if bd < 157.5 then "Southeast"
  else if bd < 202.5 then "South"
  else if bd < 247.5 then "Southwest"
  else if bd < 292.5 then "West"
  else "Northwest"

/-- The evident correspondence between the short labels of auc2.py and the
long labels of auction.py. -/
def labelCorr : String → String
  | "N" => "North"
  | "NE" => "Northeast"
  | "E" => "East"
  | "SE" => "Southeast"
  | "S" => "South"
  | "SW" => "Southwest"
  | "W" => "West"
  | "NW" => "Northwest"
  | s => s

end DirectionModel

namespace Auc2

theorem geoOf_setGeo (c : Cache) (k : String) (v : GeoVal) :
    geoOf (setGeo c k v) k = some v := by
  by_cases h : (c.find? (fun p => p.1 == k)).isSome
  · unfold setGeo geoOf lookupEntry
    rw [if_pos h, List.find?_map]
    have hcomp : ((fun p : String × CacheEntry => p.1 == k) ∘
        (fun p : String × CacheEntry =>
          if p.1 == k then (p.1, { p.2 with geocode := some v }) else p))
        = fun p : String × CacheEntry => p.1 == k := by
      funext p
      by_cases hp : p.1 = k <;> simp [hp]
    rw [hcomp]
    obtain ⟨a, ha⟩ := Option.isSome_iff_exists.mp h
    have hpa : a.1 = k := by simpa using List.find?_some ha
    rw [ha]
    simp [hpa]
  · unfold setGeo geoOf lookupEntry
    rw [if_neg h, List.find?_append]
    have hc : c.find? (fun p => p.1 == k) = none := by
      cases hc : c.find? (fun p => p.1 == k) with
      | none => rfl
      | some a => rw [hc] at h; simp at h
    rw [hc]
    simp

theorem routeOf_setRouteCity (c : Cache) (k city : String) (v : RouteVal) :
    routeOf (setRouteCity c k city v) k city = some v := by
  by_cases h : (c.find? (fun p => p.1 == k)).isSome
  · unfold setRouteCity routeOf lookupEntry
    rw [if_pos h, List.find?_map]
    have hcomp : ((fun p : String × CacheEntry => p.1 == k) ∘
        (fun p : String × CacheEntry =>
          if p.1 == k then
            (p.1, { p.2 with route :=
              if (p.2.route.find? (fun q => q.1 == city)).isSome then
                p.2.route.map (fun q => if q.1 == city then (q.1, v) else q)
              else
                p.2.route ++ [(city, v)] })
          else p))
        = fun p : String × CacheEntry => p.1 == k := by
      funext p
      by_cases hp : p.1 = k <;> simp [hp]
    rw [hcomp]
    obtain ⟨a, ha⟩ := Option.isSome_iff_exists.mp h
    have hpa : a.1 = k := by simpa using List.find?_some ha
    rw [ha]
    by_cases hr : (a.2.route.find? (fun q => q.1 == city)).isSome
    · obtain ⟨b, hb⟩ := Option.isSome_iff_exists.mp hr
      have hqb : b.1 = city := by simpa using List.find?_some hb
      simp only [Option.map_some', hpa, beq_self_eq_true, if_true, hr, Option.some_bind,
        List.find?_map]
      have hcomp2 : ((fun q : String × RouteVal => q.1 == city) ∘
          (fun q : String × RouteVal => if q.1 == city then (q.1, v) else q))
          = fun q : String × RouteVal => q.1 == city := by
        funext q
        by_cases hq : q.1 = city <;> simp [hq]
      rw [hcomp2, hb]
      simp [hqb]
    · have hrn : a.2.route.find? (fun q => q.1 == city) = none := by
        cases hx : a.2.route.find? (fun q => q.1 == city) with
        | none => rfl
        | some b => rw [hx] at hr; simp at hr
      simp only [Option.map_some', hpa, beq_self_eq_true, if_true, hr, if_false,
        Option.some_bind, List.find?_append, hrn]
      have hfind : List.find? (fun q : String × RouteVal => q.1 == city) [(city, v)]
          = some (city, v) := List.find?_cons_of_pos _ (by simp)
      simp only [Option.isSome_none, Bool.false_eq_true, if_false, List.find?_append, hrn,
        Option.none_or, hfind]
      rfl
  · unfold setRouteCity routeOf lookupEntry
    rw [if_neg h, List.find?_append]
    have hc : c.find? (fun p => p.1 == k) = none := by
      cases hc : c.find? (fun p => p.1 == k) with
      | none => rfl
      | some a => rw [hc] at h; simp at h
    rw [hc]
    simp

end Auc2

namespace Auc2

theorem stripAmbiguousWord_empty : stripAmbiguousWord "" = "" := by decide

theorem dropWhile_append_of_all {α} (p : α → Bool) (l1 l2 : List α)
    (h : ∀ c ∈ l1, p c = true) : (l1 ++ l2).dropWhile p = l2.dropWhile p := by
  induction l1 with
  | nil => rfl
  | cons a t ih =>
    rw [List.cons_append, List.dropWhile_cons, if_pos (h a (by simp))]
    exact ih (fun c hc => h c (by simp [hc]))

theorem takeWhile_append_of_all {α} (p : α → Bool) (l1 l2 : List α)
    (h : ∀ c ∈ l1, p c = true) : (l1 ++ l2).takeWhile p = l1 ++ l2.takeWhile p := by
  induction l1 with
  | nil => rfl
  | cons a t ih =>
    rw [List.cons_append, List.takeWhile_cons, if_pos (h a (by simp)), List.cons_append]
    rw [ih (fun c hc => h c (by simp [hc]))]

theorem rsplitPipe_append (addr city : String) (h : '|' ∉ city.toList) :
    rsplitPipe (addr ++ "|" ++ city) = some (addr, city) := by
  unfold rsplitPipe
  have htl : (addr ++ "|" ++ city).toList = addr.toList ++ ('|' :: city.toList) := by
    simp [String.toList, String.data_append]
  have hall : ∀ c ∈ city.toList.reverse, (c != '|') = true := by
    intro c hc
    have hmem : c ∈ city.toList := List.mem_reverse.mp hc
    simp only [bne_iff_ne, ne_eq]
    intro he
    exact h (he ▸ hmem)
  simp only [htl, List.reverse_append, List.reverse_cons, List.append_assoc,
    List.nil_append, List.singleton_append,
    dropWhile_append_of_all _ _ _ hall, takeWhile_append_of_all _ _ _ hall,
    List.dropWhile_cons, List.takeWhile_cons]
  norm_num

end Auc2

namespace Auc2

/-- C10: for a None, empty or whitespace-only address, geocode_address performs
no provider call, returns (None, None), and stores the sentinel in the cache
under the original address string as key (the empty string when the address is
None or empty). -/
theorem empty_address_sentinel (address : Option String) (nominatim google : String → Option (ℚ × ℚ))
    (cache : Cache) (h : pyStrip (address.getD "") = "") :
    (geocode_address address nominatim google cache).res = none ∧
    (geocode_address address nominatim google cache).calls = [] ∧
    geoOf (geocode_address address nominatim google cache).cache (address.getD "")
      = some .sentinel := by
  cases address with
  | none =>
    simp only [Option.getD_none] at h ⊢
    unfold geocode_address
    simp only [h, stripAmbiguousWord_empty]
    refine ⟨rfl, rfl, ?_⟩
    exact geoOf_setGeo cache "" .sentinel
  | some s =>
    simp only [Option.getD_some] at h ⊢
    unfold geocode_address
    simp only [h, stripAmbiguousWord_empty]
    refine ⟨rfl, rfl, ?_⟩
    exact geoOf_setGeo cache s .sentinel

end Auc2

namespace Auc2

/-- C4 (amended): for every address whose trimmed form starts
case-insensitively with an ambiguous placeholder phrase AND whose stripped
remainder is empty or still contains an ambiguous phrase, geocode_address
invokes no geocoding provider, writes the sentinel under the original
pre-strip address string as cache key, and returns (None, None).  (The
amendment restricts the original claim: when the stripped remainder is a
usable address, the provider chain IS invoked, see the counterexample.) -/
theorem ambiguous_shortcircuit (addr : String) (nominatim google : String → Option (ℚ × ℚ)) (cache : Cache)
    (h1 : (ambiguous_words.any (fun w => startsWithStr (lowerStr (pyStrip addr)) w)) = true)
    (h2 : stripAmbiguousWord (pyStrip addr) = "" ∨
      (ambiguous_words.any
        (fun w => containsSub (lowerStr (stripAmbiguousWord (pyStrip addr))) w)) = true) :
    (geocode_address (some addr) nominatim google cache).res = none ∧
    (geocode_address (some addr) nominatim google cache).calls = [] ∧
    geoOf (geocode_address (some addr) nominatim google cache).cache addr = some .sentinel := by
  unfold geocode_address
  have hcond : (stripAmbiguousWord (pyStrip addr) == "" ||
      ambiguous_words.any
        (fun w => containsSub (lowerStr (stripAmbiguousWord (pyStrip addr))) w)) = true := by
    rcases h2 with h2 | h2
    · rw [h2]
      simp
    · rw [h2]
      simp
  simp only [hcond, if_true]
  exact ⟨trivial, trivial, geoOf_setGeo cache addr .sentinel⟩

end Auc2

namespace Auc2

/-- C1 (amended): a cached sentinel is NOT final: on the next call
geocode_address falls through the cache hit test and re-invokes the provider
chain (for any address that does not short-circuit as ambiguous/empty), and
calculate_driving_time_osrm likewise re-issues the OSRM request when the
cached route value is the sentinel.  Only a cached non-sentinel value
short-circuits. -/
theorem sentinel_reattempted :
    (∀ (addr : String) (cache : Cache) (nominatim google : String → Option (ℚ × ℚ)),
      stripAmbiguousWord (pyStrip addr) ≠ "" →
      (ambiguous_words.any
        (fun w => containsSub (lowerStr (stripAmbiguousWord (pyStrip addr))) w)) = false →
      geoOf cache addr = some .sentinel →
      (geocode_address (some addr) nominatim google cache).calls ≠ []) ∧
    (∀ (olat olng dlat dlng : ℚ) (cache : Cache) (addr city : String)
      (osrm : ℚ → ℚ → ℚ → ℚ → Option (ℚ × ℚ)) (calcDir : ℚ → ℚ → ℚ → ℚ → String),
      '|' ∉ city.toList →
      routeOf cache addr (pyCapitalize (pyStrip city)) = some .sentinel →
      ∃ r, calculate_driving_time_osrm olat olng dlat dlng cache (addr ++ "|" ++ city)
        osrm calcDir = some r ∧ r.osrmCalls = 1) := by
  constructor
  · intro addr cache nominatim google h1 h2 h3
    unfold geocode_address
    have hcond : (stripAmbiguousWord (pyStrip addr) == "" ||
        ambiguous_words.any
          (fun w => containsSub (lowerStr (stripAmbiguousWord (pyStrip addr))) w)) = false := by
      rw [h2]
      simp [h1]
    simp only [hcond, Bool.false_eq_true, if_false, h3]
    cases hn : nominatim (stripAmbiguousWord (pyStrip addr)) with
    | some p =>
      cases p
      simp
    | none =>
      by_cases hs : remove_ordinal_suffixes (stripAmbiguousWord (pyStrip addr))
          != stripAmbiguousWord (pyStrip addr)
      · simp only [hs, if_true]
        cases hn2 : nominatim
            (remove_ordinal_suffixes (stripAmbiguousWord (pyStrip addr))) with
        | some p =>
          cases p
          simp
        | none =>
          cases hg : google (stripAmbiguousWord (pyStrip addr)) with
          | some p =>
            cases p
            simp
          | none => simp
      · simp only [Bool.not_eq_true] at hs
        simp only [hs, Bool.false_eq_true, if_false]
        cases hg : google (stripAmbiguousWord (pyStrip addr)) with
        | some p =>
          cases p
          simp
        | none => simp
  · intro olat olng dlat dlng cache addr city osrm calcDir hpipe hroute
    unfold calculate_driving_time_osrm
    rw [rsplitPipe_append addr city hpipe]
    simp only [hroute]
    cases ho : osrm olat olng dlat dlng with
    | some p =>
      cases p
      exact ⟨_, rfl, rfl⟩
    | none => exact ⟨_, rfl, rfl⟩

end Auc2

namespace Auc2

/-- C2 (code bug evaluation): starting from an item absent from the table,
three consecutive passes with 30 hours remaining send three notifications:
the freshly scraped row never carries the persisted reported flags, so the
read at lines 651-654 of auc2.py always yields False and the item re-fires on
every pass, contradicting the at-most-two-notifications claim. -/
theorem repeated_notification_eval :
    (runPasses none
      [(false, .parsed 108000), (false, .parsed 108000), (false, .parsed 108000)]).2 = 3 := by
  decide

/-- C3 (code bug evaluation): a pass that finds the item concluded overwrites
the stored reporting flags with empty strings (row.get of the absent keys at
lines 611-612 of auc2.py), so a True flag transitions back to an empty value,
contradicting the monotonicity claim. -/
theorem concluded_pass_resets_flags :
    (itemStep (some (.bool true, .nan)) true .noMatch).flags
      = some (.str "", .str "") := by
  decide

/-- C5: the remaining-time classification of each pass.  Nonpositive
remaining time renders the string Ended and neither defers nor notifies; at
exactly 47h59m (172740 s) the pass is tier-eligible and fires a notification,
setting the first reporting flag; at exactly 48h0m (172800 s) the pass takes
the deferral branch and does not notify; at exactly 0h59m (3540 s) with the
first flag set and the second not, a notification fires; an unparseable
deadline (Unknown or ParseError) never notifies and never defers. -/
theorem remaining_classification :
    (∀ (s : ℤ), s ≤ 0 → ∀ fl, remainingStr (.parsed s) = "Ended" ∧
        (itemStep fl false (.parsed s)).notified = false ∧
        (itemStep fl false (.parsed s)).deferred = false) ∧
    ((itemStep none false (.parsed 172740)).notified = true ∧
     (itemStep none false (.parsed 172740)).deferred = false ∧
     (itemStep none false (.parsed 172740)).flags = some (.bool true, .nan)) ∧
    (∀ fl, (itemStep fl false (.parsed 172800)).deferred = true ∧
           (itemStep fl false (.parsed 172800)).notified = false) ∧
    ((itemStep (some (.bool true, .str "")) false (.parsed 3540)).notified = true ∧
     (itemStep (some (.bool true, .str "")) false (.parsed 3540)).deferred = false) ∧
    (∀ fl, (itemStep fl false .noMatch).notified = false ∧
           (itemStep fl false .noMatch).deferred = false ∧
           (itemStep fl false .parseError).notified = false ∧
           (itemStep fl false .parseError).deferred = false) := by
  refine ⟨?_, by decide, fun fl => ⟨rfl, rfl⟩, by decide, fun fl => ⟨rfl, rfl, rfl, rfl⟩⟩
  intro s hs fl
  have hEnd : remainingStr (.parsed s) = "Ended" := by
    simp only [remainingStr]
    rw [if_neg (by omega : ¬ (0 : ℤ) < s)]
  refine ⟨hEnd, ?_, ?_⟩ <;> simp [itemStep, hEnd]

end Auc2

namespace Auction

theorem lookupRec_setKey (r : Row) (k : String) (v : Value) :
    lookupRec (setKey r k v) k = some v := by
  induction r with
  | nil => simp [setKey, lookupRec]
  | cons hd tl ih =>
    obtain ⟨k', v'⟩ := hd
    by_cases hk : k' = k
    · simp [setKey, hk, lookupRec]
    · simp [setKey, hk, lookupRec, ih]

/-- C8: for a nonempty batch of new category-X properties,
save_properties_to_excel writes the table (new category-X rows) ++ (existing
category-X rows) ++ (all other-category rows), and the other-category rows of
the result are exactly the other-category rows of the existing table,
unchanged in count, order and field values. -/
theorem save_preserves_other_categories (new_properties existing_df : List Row) (property_category : String)
    (h : new_properties ≠ []) :
    save_properties_to_excel new_properties existing_df property_category
      = some ((new_properties.map
          (fun p => setKey p "Property Category" (Value.str property_category)))
        ++ existing_df.filter (isCat property_category)
        ++ existing_df.filter (fun r => !(isCat property_category r))) ∧
    ((new_properties.map
          (fun p => setKey p "Property Category" (Value.str property_category)))
        ++ existing_df.filter (isCat property_category)
        ++ existing_df.filter (fun r => !(isCat property_category r))).filter
        (fun r => !(isCat property_category r))
      = existing_df.filter (fun r => !(isCat property_category r)) := by
  constructor
  · unfold save_properties_to_excel
    rw [if_neg (by simpa [List.isEmpty_iff] using h)]
    by_cases he : existing_df.isEmpty
    · rw [if_pos he]
      have : existing_df = [] := by simpa [List.isEmpty_iff] using he
      subst this
      simp
    · rw [if_neg he]
      by_cases hcol : existing_df.any (fun r => (lookupRec r "Property Category").isSome)
      · simp only [hcol, if_true]
      · simp only [hcol, Bool.false_eq_true, if_false]
        have hnone : ∀ r ∈ existing_df, lookupRec r "Property Category" = none := by
          simpa using hcol
        have hsame : existing_df.filter (isCat property_category) = [] := by
          rw [List.filter_eq_nil_iff]
          intro r hr
          simp [isCat, hnone r hr]
        have hother : existing_df.filter (fun r => !(isCat property_category r))
            = existing_df := by
          rw [List.filter_eq_self]
          intro r hr
          simp [isCat, hnone r hr]
        rw [hother, hsame]
  · rw [List.filter_append, List.filter_append]
    have h1 : (new_properties.map
        (fun p => setKey p "Property Category" (Value.str property_category))).filter
        (fun r => !(isCat property_category r)) = [] := by
      rw [List.filter_eq_nil_iff]
      intro r hr
      obtain ⟨p, _, rfl⟩ := List.mem_map.mp hr
      simp [isCat, lookupRec_setKey]
    have h2 : (existing_df.filter (isCat property_category)).filter
        (fun r => !(isCat property_category r)) = [] := by
      rw [List.filter_eq_nil_iff]
      intro r hr
      have := (List.mem_filter.mp hr).2
      simp [this]
    have h3 : (existing_df.filter (fun r => !(isCat property_category r))).filter
        (fun r => !(isCat property_category r))
        = existing_df.filter (fun r => !(isCat property_category r)) := by
      rw [List.filter_eq_self]
      intro r hr
      exact (List.mem_filter.mp hr).2
    rw [h1, h2, h3]
    simp

end Auction

namespace Auc2

theorem getD_set_ne (r : List Value) (i j : Nat) (v d : Value) (h : i ≠ j) :
    (r.set i v).getD j d = r.getD j d := by
  simp [List.getD_eq_getElem?_getD, List.getElem?_set_ne h]

theorem getD_set_self (r : List Value) (j : Nat) (v d : Value) (h : j < r.length) :
    (r.set j v).getD j d = v := by
  rw [List.getD_eq_getElem?_getD, List.getElem?_set_eq_of_lt _ h]
  rfl

theorem set_eq_of_get? (r : List Value) (i : Nat) (v : Value) (h : r.get? i = some v) :
    r.set i v = r := by
  induction r generalizing i with
  | nil => simp at h
  | cons hd tl ih =>
    cases i with
    | zero =>
      simp only [List.get?_cons_zero, Option.some_inj] at h
      rw [h]
      rfl
    | succ n =>
      simp only [List.get?_cons_succ] at h
      simp [List.set_cons_succ, ih n h]

end Auc2

namespace Auc2

theorem applyWrites_cons_some {cols : List String} {kv : String × Value} {i : Nat}
    (rec : List (String × Value)) (r : List Value) (h : idxOf cols kv.1 = some i) :
    applyWrites cols (kv :: rec) r = applyWrites cols rec (r.set i kv.2) := by
  unfold applyWrites
  rw [List.foldl_cons, h]

theorem applyWrites_cons_none {cols : List String} {kv : String × Value}
    (rec : List (String × Value)) (r : List Value) (h : idxOf cols kv.1 = none) :
    applyWrites cols (kv :: rec) r = applyWrites cols rec r := by
  unfold applyWrites
  rw [List.foldl_cons, h]

theorem rowUpd_cons_some {cols : List String} {u : Value} {kv : String × Value} {i : Nat}
    (rec : List (String × Value)) (r : List Value) (h : idxOf cols kv.1 = some i) :
    rowUpd cols u (kv :: rec) r
      = rowUpd cols u rec (if matchesUrl cols u r then r.set i kv.2 else r) := by
  unfold rowUpd
  rw [List.foldl_cons, h]

theorem rowUpd_cons_none {cols : List String} {u : Value} {kv : String × Value}
    (rec : List (String × Value)) (r : List Value) (h : idxOf cols kv.1 = none) :
    rowUpd cols u (kv :: rec) r = rowUpd cols u rec r := by
  unfold rowUpd
  rw [List.foldl_cons, h]

theorem writeIdxs_cons_some {cols : List String} {kv : String × Value} {i : Nat}
    (rec : List (String × Value)) (h : idxOf cols kv.1 = some i) :
    writeIdxs cols (kv :: rec) = i :: writeIdxs cols rec := by
  unfold writeIdxs
  rw [List.filterMap_cons, h]

theorem writeIdxs_cons_none {cols : List String} {kv : String × Value}
    (rec : List (String × Value)) (h : idxOf cols kv.1 = none) :
    writeIdxs cols (kv :: rec) = writeIdxs cols rec := by
  unfold writeIdxs
  rw [List.filterMap_cons, h]

theorem length_applyWrites (cols : List String) (rec : List (String × Value)) (r : List Value) :
    (applyWrites cols rec r).length = r.length := by
  induction rec generalizing r with
  | nil => rfl
  | cons kv rec ih =>
    cases hidx : idxOf cols kv.1 with
    | none => rw [applyWrites_cons_none rec r hidx, ih r]
    | some i => rw [applyWrites_cons_some rec r hidx, ih (r.set i kv.2), List.length_set]

theorem get?_applyWrites_not_written (cols : List String) (rec : List (String × Value))
    (r : List Value) (i : Nat) (h : i ∉ writeIdxs cols rec) :
    (applyWrites cols rec r).get? i = r.get? i := by
  induction rec generalizing r with
  | nil => rfl
  | cons kv rec ih =>
    cases hidx : idxOf cols kv.1 with
    | none =>
      rw [writeIdxs_cons_none rec hidx] at h
      rw [applyWrites_cons_none rec r hidx, ih r h]
    | some j =>
      rw [writeIdxs_cons_some rec hidx] at h
      have hne : j ≠ i := fun he => h (by simp [he])
      have hni : i ∉ writeIdxs cols rec := fun hm => h (by simp [hm])
      rw [applyWrites_cons_some rec r hidx, ih (r.set j kv.2) hni,
        List.get?_set_ne _ _ hne]

theorem applyWrites_set_mem (cols : List String) (rec : List (String × Value))
    (r : List Value) (i : Nat) (v : Value) (h : i ∈ writeIdxs cols rec) :
    applyWrites cols rec (r.set i v) = applyWrites cols rec r := by
  induction rec generalizing r with
  | nil => simp [writeIdxs] at h
  | cons kv rec ih =>
    cases hidx : idxOf cols kv.1 with
    | none =>
      rw [writeIdxs_cons_none rec hidx] at h
      rw [applyWrites_cons_none rec _ hidx, applyWrites_cons_none rec _ hidx]
      exact ih r h
    | some j =>
      rw [writeIdxs_cons_some rec hidx] at h
      rw [applyWrites_cons_some rec _ hidx, applyWrites_cons_some rec _ hidx]
      by_cases hij : j = i
      · subst hij
        rw [List.set_set]
      · have hmem : i ∈ writeIdxs cols rec := by
          rcases List.mem_cons.mp h with h | h
          · exact absurd h.symm hij
          · exact h
        rw [List.set_comm _ _ _ (fun he => hij he.symm), ih (r.set j kv.2) hmem]

theorem applyWrites_set_not_mem (cols : List String) (rec : List (String × Value))
    (r : List Value) (i : Nat) (v : Value) (h : i ∉ writeIdxs cols rec) :
    applyWrites cols rec (r.set i v) = (applyWrites cols rec r).set i v := by
  induction rec generalizing r with
  | nil => rfl
  | cons kv rec ih =>
    cases hidx : idxOf cols kv.1 with
    | none =>
      rw [writeIdxs_cons_none rec hidx] at h
      rw [applyWrites_cons_none rec _ hidx, applyWrites_cons_none rec _ hidx]
      exact ih r h
    | some j =>
      rw [writeIdxs_cons_some rec hidx] at h
      have hne : i ≠ j := fun he => h (by simp [he])
      have hni : i ∉ writeIdxs cols rec := fun hm => h (by simp [hm])
      rw [applyWrites_cons_some rec _ hidx, applyWrites_cons_some rec _ hidx,
        List.set_comm _ _ _ hne, ih (r.set j kv.2) hni]

theorem applyWrites_idem (cols : List String) (rec : List (String × Value)) (r : List Value) :
    applyWrites cols rec (applyWrites cols rec r) = applyWrites cols rec r := by
  induction rec generalizing r with
  | nil => rfl
  | cons kv rec ih =>
    cases hidx : idxOf cols kv.1 with
    | none =>
      rw [applyWrites_cons_none rec _ hidx, applyWrites_cons_none rec _ hidx]
      exact ih r
    | some i =>
      rw [applyWrites_cons_some rec _ hidx, applyWrites_cons_some rec _ hidx]
      by_cases hin : i ∈ writeIdxs cols rec
      · rw [applyWrites_set_mem _ _ _ _ _ hin]
        exact ih (r.set i kv.2)
      · rw [applyWrites_set_not_mem _ _ _ _ _ hin, ih (r.set i kv.2)]
        by_cases hlen : i < r.length
        · have hz : (applyWrites cols rec (r.set i kv.2)).get? i = some kv.2 := by
            rw [get?_applyWrites_not_written _ _ _ _ hin]
            rw [List.get?_eq_getElem?, List.getElem?_set_eq_of_lt _ hlen]
          exact set_eq_of_get? _ _ _ hz
        · have hz : (applyWrites cols rec (r.set i kv.2)).length ≤ i := by
            rw [length_applyWrites, List.length_set]
            omega
          exact List.set_eq_of_length_le hz

end Auc2

namespace Auc2

theorem idxOf_inj (l : List String) (k1 k2 : String) (j : Nat)
    (h1 : idxOf l k1 = some j) (h2 : idxOf l k2 = some j) : k1 = k2 := by
  induction l generalizing j with
  | nil => simp [idxOf] at h1
  | cons c cs ih =>
    by_cases hc1 : c = k1
    · by_cases hc2 : c = k2
      · rw [← hc1, ← hc2]
      · rw [idxOf, if_pos hc1] at h1
        rw [idxOf, if_neg hc2] at h2
        cases hx : idxOf cs k2 with
        | none => rw [hx] at h2; simp at h2
        | some m =>
          rw [hx] at h2
          simp only [Option.map_some', Option.some_inj] at h1 h2
          omega
    · by_cases hc2 : c = k2
      · rw [idxOf, if_neg hc1] at h1
        rw [idxOf, if_pos hc2] at h2
        cases hx : idxOf cs k1 with
        | none => rw [hx] at h1; simp at h1
        | some m =>
          rw [hx] at h1
          simp only [Option.map_some', Option.some_inj] at h1 h2
          omega
      · rw [idxOf, if_neg hc1] at h1
        rw [idxOf, if_neg hc2] at h2
        cases hx1 : idxOf cs k1 with
        | none => rw [hx1] at h1; simp at h1
        | some m1 =>
          cases hx2 : idxOf cs k2 with
          | none => rw [hx2] at h2; simp at h2
          | some m2 =>
            rw [hx1] at h1
            rw [hx2] at h2
            simp only [Option.map_some', Option.some_inj] at h1 h2
            have : m1 = m2 := by omega
            exact ih m1 hx1 (this ▸ hx2)

theorem idxOf_get? (l : List String) (k : String) (j : Nat) (h : idxOf l k = some j) :
    l.get? j = some k := by
  induction l generalizing j with
  | nil => simp [idxOf] at h
  | cons c cs ih =>
    by_cases hc : c = k
    · rw [idxOf, if_pos hc] at h
      simp only [Option.some_inj] at h
      rw [← h, hc]
      rfl
    · rw [idxOf, if_neg hc] at h
      cases hx : idxOf cs k with
      | none => rw [hx] at h; simp at h
      | some m =>
        rw [hx] at h
        simp only [Option.map_some', Option.some_inj] at h
        rw [← h]
        simpa using ih m hx

theorem idxOf_left (l1 l2 : List String) (k : String) (j : Nat) (h : idxOf l1 k = some j) :
    idxOf (l1 ++ l2) k = some j := by
  induction l1 generalizing j with
  | nil => simp [idxOf] at h
  | cons c cs ih =>
    by_cases hc : c = k
    · rw [idxOf, if_pos hc] at h
      rw [List.cons_append, idxOf, if_pos hc]
      exact h
    · rw [idxOf, if_neg hc] at h
      rw [List.cons_append, idxOf, if_neg hc]
      cases hx : idxOf cs k with
      | none => rw [hx] at h; simp at h
      | some m =>
        rw [hx] at h
        rw [ih m hx]
        exact h

theorem idxOf_mem (l : List String) (k : String) (h : k ∈ l) :
    ∃ j, idxOf l k = some j := by
  induction l with
  | nil => simp at h
  | cons c cs ih =>
    by_cases hc : c = k
    · exact ⟨0, by rw [idxOf, if_pos hc]⟩
    · have hk : k ∈ cs := by
        rcases List.mem_cons.mp h with h | h
        · exact absurd h.symm hc
        · exact h
      obtain ⟨m, hm⟩ := ih hk
      exact ⟨m + 1, by rw [idxOf, if_neg hc, hm]; rfl⟩

theorem idxOf_none_of_not_mem (l : List String) (k : String) (h : k ∉ l) :
    idxOf l k = none := by
  induction l with
  | nil => rfl
  | cons c cs ih =>
    have hc : ¬ c = k := fun he => h (by simp [he])
    rw [idxOf, if_neg hc, ih (fun hm => h (by simp [hm]))]
    rfl

theorem getD_replicate_nan (m j : Nat) :
    (List.replicate m Value.nan).getD j Value.nan = Value.nan := by
  induction m generalizing j with
  | zero => rfl
  | succ n ih =>
    cases j with
    | zero => rfl
    | succ i => simpa [List.replicate] using ih i

theorem getD_append_pad (r : List Value) (m j : Nat) :
    (r ++ List.replicate m Value.nan).getD j Value.nan = r.getD j Value.nan := by
  induction r generalizing j with
  | nil => simpa using getD_replicate_nan m j
  | cons hd tl ih =>
    cases j with
    | zero => rfl
    | succ i => simpa using ih i

end Auc2

namespace Auc2

theorem matchesUrl_applyWrites (cols : List String) (u : Value) (rec : List (String × Value))
    (r : List Value)
    (hcons : ∀ kv ∈ rec, ∀ j, idxOf cols kv.1 = some j →
      idxOf cols "item_url" = some j → kv.2 = u)
    (h : matchesUrl cols u r = true) :
    matchesUrl cols u (applyWrites cols rec r) = true := by
  induction rec generalizing r with
  | nil => exact h
  | cons kv rec ih =>
    cases hidx : idxOf cols kv.1 with
    | none =>
      rw [applyWrites_cons_none rec _ hidx]
      exact ih r (fun kv' hm => hcons kv' (List.mem_cons_of_mem _ hm)) h
    | some i =>
      rw [applyWrites_cons_some rec _ hidx]
      apply ih _ (fun kv' hm => hcons kv' (List.mem_cons_of_mem _ hm))
      unfold matchesUrl at h ⊢
      cases hj : idxOf cols "item_url" with
      | none => simp [hj] at h
      | some j =>
        simp only [hj] at h ⊢
        by_cases hij : i = j
        · subst hij
          have hv : kv.2 = u := hcons kv (List.mem_cons_self _ _) i hidx hj
          by_cases hlen : i < r.length
          · rw [getD_set_self _ _ _ _ hlen]
            simp [hv]
          · rw [List.set_eq_of_length_le (by omega)]
            exact h
        · rw [getD_set_ne _ _ _ _ _ hij]
          exact h

theorem rowUpd_of_not_matches (cols : List String) (u : Value) (rec : List (String × Value))
    (r : List Value) (h : matchesUrl cols u r = false) :
    rowUpd cols u rec r = r := by
  induction rec with
  | nil => rfl
  | cons kv rec ih =>
    cases hidx : idxOf cols kv.1 with
    | none => rw [rowUpd_cons_none rec _ hidx, ih]
    | some i =>
      rw [rowUpd_cons_some rec _ hidx, if_neg (by simp [h]), ih]

theorem rowUpd_eq_applyWrites (cols : List String) (u : Value) (rec : List (String × Value))
    (r : List Value)
    (hcons : ∀ kv ∈ rec, ∀ j, idxOf cols kv.1 = some j →
      idxOf cols "item_url" = some j → kv.2 = u)
    (h : matchesUrl cols u r = true) :
    rowUpd cols u rec r = applyWrites cols rec r := by
  induction rec generalizing r with
  | nil => rfl
  | cons kv rec ih =>
    cases hidx : idxOf cols kv.1 with
    | none =>
      rw [rowUpd_cons_none rec _ hidx, applyWrites_cons_none rec _ hidx]
      exact ih r (fun kv' hm => hcons kv' (List.mem_cons_of_mem _ hm)) h
    | some i =>
      rw [rowUpd_cons_some rec _ hidx, applyWrites_cons_some rec _ hidx, if_pos h]
      have hstep : matchesUrl cols u (r.set i kv.2) = true := by
        have := matchesUrl_applyWrites cols u [kv] r
          (fun kv' hm => by
            rcases List.mem_singleton.mp hm with rfl
            exact hcons kv' (List.mem_cons_self _ _)) h
        rwa [applyWrites_cons_some [] _ hidx] at this
      exact ih _ (fun kv' hm => hcons kv' (List.mem_cons_of_mem _ hm)) hstep

theorem rowUpd_idem (cols : List String) (u : Value) (rec : List (String × Value))
    (r : List Value)
    (hcons : ∀ kv ∈ rec, ∀ j, idxOf cols kv.1 = some j →
      idxOf cols "item_url" = some j → kv.2 = u) :
    rowUpd cols u rec (rowUpd cols u rec r) = rowUpd cols u rec r := by
  cases h : matchesUrl cols u r with
  | false => rw [rowUpd_of_not_matches _ _ _ _ h, rowUpd_of_not_matches _ _ _ _ h]
  | true =>
    rw [rowUpd_eq_applyWrites _ _ _ _ hcons h]
    have hm2 : matchesUrl cols u (applyWrites cols rec r) = true :=
      matchesUrl_applyWrites _ _ _ _ hcons h
    rw [rowUpd_eq_applyWrites _ _ _ _ hcons hm2]
    exact applyWrites_idem _ _ _

theorem updateMatching_eq_map (t : PTable) (u : Value) (rec : List (String × Value)) :
    updateMatching t u rec = { t with rows := t.rows.map (rowUpd t.cols u rec) } := by
  unfold updateMatching
  have : ∀ (rows : List (List Value)),
      List.foldl (fun rows kv =>
        match idxOf t.cols kv.1 with
        | some i => rows.map (fun r => if matchesUrl t.cols u r then r.set i kv.2 else r)
        | none => rows) rows rec = rows.map (rowUpd t.cols u rec) := by
    induction rec with
    | nil =>
      intro rows
      rw [List.foldl_nil]
      symm
      have hid : rowUpd t.cols u [] = fun r : List Value => r := funext (fun r => rfl)
      rw [hid, List.map_id']
    | cons kv rec ih =>
      intro rows
      rw [List.foldl_cons]
      cases hidx : idxOf t.cols kv.1 with
      | some i =>
        simp only [hidx]
        rw [ih, List.map_map]
        apply List.map_congr_left
        intro r _
        rw [Function.comp_apply, rowUpd_cons_some rec _ hidx]
      | none =>
        simp only [hidx]
        rw [ih]
        apply List.map_congr_left
        intro r _
        rw [rowUpd_cons_none rec _ hidx]
  rw [this t.rows]

end Auc2

namespace Auc2

theorem clean_eq_of_resolved (rec : List (String × Value)) (t : PTable)
    (h : ∀ kv ∈ rec, kv.2 ≠ Value.str "") :
    clean_row_types rec t = rec := by
  unfold clean_row_types
  have hcg : ∀ kv ∈ rec,
      (if kv.1 ∈ t.cols ∧ isNumericCol t kv.1 ∧ kv.2 = Value.str "" then (kv.1, Value.nan)
       else kv) = kv := by
    intro kv hm
    exact if_neg (fun hc => h kv hm hc.2.2)
  rw [List.map_congr_left hcg]
  exact List.map_id' rec

theorem lookupRec_of_mem_nodup (rec : List (String × Value)) (kv : String × Value)
    (hnd : (recKeys rec).Nodup) (hm : kv ∈ rec) :
    lookupRec rec kv.1 = some kv.2 := by
  induction rec with
  | nil => simp at hm
  | cons hd tl ih =>
    rcases List.mem_cons.mp hm with rfl | hm'
    · simp [lookupRec]
    · have hk : hd.1 ≠ kv.1 := by
        have hnotin : hd.1 ∉ recKeys tl := by
          have := hnd
          unfold recKeys at this ⊢
          simp only [List.map_cons, List.nodup_cons] at this
          exact this.1
        intro he
        exact hnotin (he ▸ List.mem_map_of_mem _ hm')
      have hnd' : (recKeys tl).Nodup := by
        unfold recKeys at hnd ⊢
        simp only [List.map_cons, List.nodup_cons] at hnd
        exact hnd.2
      rw [lookupRec, if_neg hk]
      exact ih hnd' hm'

theorem upsert_present (t : PTable) (rec : List (String × Value))
    (h : hasUrl t ((lookupRec rec "item_url").getD (Value.str "")) = true) :
    upsert t rec
      = updateMatching t ((lookupRec rec "item_url").getD (Value.str ""))
          (clean_row_types rec t) := by
  simp only [upsert, h, if_true]

theorem upsert_absent (t : PTable) (rec : List (String × Value))
    (h : hasUrl t ((lookupRec rec "item_url").getD (Value.str "")) = false) :
    upsert t rec
      = { cols := t.cols ++ (recKeys (if t.rows.isEmpty || t.cols.isEmpty then rec
            else clean_row_types rec t)).filter (fun k => decide (k ∉ t.cols)),
          rows := t.rows.map (fun r => r ++ List.replicate
              ((recKeys (if t.rows.isEmpty || t.cols.isEmpty then rec
                else clean_row_types rec t)).filter (fun k => decide (k ∉ t.cols))).length
              Value.nan)
            ++ [(t.cols ++ (recKeys (if t.rows.isEmpty || t.cols.isEmpty then rec
                  else clean_row_types rec t)).filter (fun k => decide (k ∉ t.cols))).map
                (fun c => (lookupRec (if t.rows.isEmpty || t.cols.isEmpty then rec
                  else clean_row_types rec t) c).getD Value.nan)] } := by
  simp only [upsert, h, Bool.false_eq_true, if_false]

end Auc2

namespace Auc2

theorem mem_of_lookupRec_some (rec : List (String × Value)) (k : String) (v : Value)
    (h : lookupRec rec k = some v) : k ∈ recKeys rec := by
  induction rec with
  | nil => simp [lookupRec] at h
  | cons hd tl ih =>
    by_cases hk : hd.1 = k
    · simp [recKeys, hk]
    · rw [lookupRec, if_neg hk] at h
      simp only [recKeys, List.map_cons, List.mem_cons]
      exact Or.inr (ih h)

theorem applyWrites_id_of_get? (cols : List String) (rec : List (String × Value))
    (r : List Value)
    (h : ∀ kv ∈ rec, ∀ i, idxOf cols kv.1 = some i → r.get? i = some kv.2) :
    applyWrites cols rec r = r := by
  induction rec with
  | nil => rfl
  | cons kv rec ih =>
    cases hidx : idxOf cols kv.1 with
    | none =>
      rw [applyWrites_cons_none rec _ hidx]
      exact ih (fun kv' hm => h kv' (List.mem_cons_of_mem _ hm))
    | some i =>
      rw [applyWrites_cons_some rec _ hidx,
        set_eq_of_get? _ _ _ (h kv (List.mem_cons_self _ _) i hidx)]
      exact ih (fun kv' hm => h kv' (List.mem_cons_of_mem _ hm))

theorem idxOf_append_of_not_mem (l1 l2 : List String) (k : String) (h : k ∉ l1) :
    idxOf (l1 ++ l2) k = (idxOf l2 k).map (fun j => l1.length + j) := by
  induction l1 with
  | nil =>
    simp only [List.nil_append, List.length_nil]
    cases idxOf l2 k <;> simp
  | cons c cs ih =>
    have hc : ¬ c = k := fun he => h (by simp [he])
    rw [List.cons_append, idxOf, if_neg hc, ih (fun hm => h (by simp [hm]))]
    cases idxOf l2 k with
    | none => rfl
    | some j =>
      simp only [Option.map_some', Option.map_map]
      simp only [List.length_cons]
      congr 1
      omega

theorem getD_append_ge (r : List Value) (m j : Nat) (h : r.length ≤ j) :
    (r ++ List.replicate m Value.nan).getD j Value.nan = Value.nan := by
  induction r generalizing j with
  | nil => simpa using getD_replicate_nan m j
  | cons hd tl ih =>
    cases j with
    | zero => simp at h
    | succ i =>
      simp only [List.length_cons] at h
      simpa using ih i (by omega)

end Auc2

namespace Auc2

/-- C7: the per-item upsert is idempotent.  For a well-formed table and a
fully-resolved record (a dict with distinct keys, an item_url string, and no
empty-string placeholder values), applying the upsert twice leaves the table
exactly as applying it once; in particular the second application takes the
update-in-place path and creates no duplicate row. -/
theorem upsert_idempotent (t : PTable) (rec : List (String × Value)) (us : String)
    (hnd : (recKeys rec).Nodup)
    (hurl : lookupRec rec "item_url" = some (Value.str us))
    (hres : ∀ kv ∈ rec, kv.2 ≠ Value.str "")
    (halign : ∀ r ∈ t.rows, r.length = t.cols.length) :
    upsert (upsert t rec) rec = upsert t rec := by
  have hu : (lookupRec rec "item_url").getD (Value.str "") = Value.str us := by
    rw [hurl]
    rfl
  have hcons : ∀ (cols : List String), ∀ kv ∈ rec, ∀ j, idxOf cols kv.1 = some j →
      idxOf cols "item_url" = some j → kv.2 = Value.str us := by
    intro cols kv hm j h1 h2
    have hk : kv.1 = "item_url" := idxOf_inj cols kv.1 "item_url" j h1 h2
    have hl := lookupRec_of_mem_nodup rec kv hnd hm
    rw [hk, hurl] at hl
    exact Option.some_inj.mp hl.symm
  by_cases hp : hasUrl t (Value.str us) = true
  · -- the record is already present: both applications are in-place updates
    have e1 : upsert t rec = updateMatching t (Value.str us) rec := by
      rw [upsert_present t rec (by rw [hu]; exact hp), hu, clean_eq_of_resolved rec t hres]
    rw [e1, updateMatching_eq_map]
    have hp1 : hasUrl { t with rows := t.rows.map (rowUpd t.cols (Value.str us) rec) }
        (Value.str us) = true := by
      obtain ⟨r, hrmem, hrmatch⟩ := List.any_eq_true.mp hp
      apply List.any_eq_true.mpr
      refine ⟨rowUpd t.cols (Value.str us) rec r, List.mem_map_of_mem _ hrmem, ?_⟩
      rw [rowUpd_eq_applyWrites _ _ _ _ (hcons t.cols) hrmatch]
      exact matchesUrl_applyWrites _ _ _ _ (hcons t.cols) hrmatch
    rw [upsert_present _ rec (by rw [hu]; exact hp1), hu,
      clean_eq_of_resolved rec _ hres, updateMatching_eq_map]
    congr 1
    rw [List.map_map]
    apply List.map_congr_left
    intro r _
    exact rowUpd_idem t.cols (Value.str us) rec r (hcons t.cols)
  · -- the record is new: the first application appends, the second updates in place
    have hpF : hasUrl t ((lookupRec rec "item_url").getD (Value.str "")) = false := by
      rw [hu]
      exact Bool.not_eq_true _ ▸ (by simpa using hp)
    have hcleaned : (if t.rows.isEmpty || t.cols.isEmpty then rec
        else clean_row_types rec t) = rec := by
      by_cases hc : t.rows.isEmpty || t.cols.isEmpty
      · rw [if_pos hc]
      · rw [if_neg hc, clean_eq_of_resolved rec t hres]
    have e1 := upsert_absent t rec hpF
    rw [hcleaned] at e1
    rw [e1]
    have hmemkeys : "item_url" ∈ recKeys rec := mem_of_lookupRec_some rec _ _ hurl
    have hmemcols1 : "item_url" ∈ t.cols
        ++ (recKeys rec).filter (fun k => decide (k ∉ t.cols)) := by
      by_cases hco : "item_url" ∈ t.cols
      · exact List.mem_append_left _ hco
      · exact List.mem_append_right _ (List.mem_filter.mpr ⟨hmemkeys, by simpa using hco⟩)
    obtain ⟨j1, hj1⟩ := idxOf_mem _ _ hmemcols1
    have hget1 := idxOf_get? _ _ _ hj1
    have hnewRow : ((t.cols ++ (recKeys rec).filter (fun k => decide (k ∉ t.cols))).map
        (fun c => (lookupRec rec c).getD Value.nan)).get? j1 = some (Value.str us) := by
      rw [List.get?_map, hget1]
      simp [hurl]
    have hmatchNew : matchesUrl (t.cols ++ (recKeys rec).filter (fun k => decide (k ∉ t.cols)))
        (Value.str us)
        ((t.cols ++ (recKeys rec).filter (fun k => decide (k ∉ t.cols))).map
          (fun c => (lookupRec rec c).getD Value.nan)) = true := by
      unfold matchesUrl
      simp only [hj1]
      have hgd : ((t.cols ++ (recKeys rec).filter (fun k => decide (k ∉ t.cols))).map
          (fun c => (lookupRec rec c).getD Value.nan)).getD j1 Value.nan = Value.str us := by
        rw [List.getD_eq_getElem?_getD, ← List.get?_eq_getElem?, hnewRow]
        rfl
      rw [hgd]
      simp
    have hp1 : hasUrl
        { cols := t.cols ++ (recKeys rec).filter (fun k => decide (k ∉ t.cols)),
          rows := t.rows.map (fun r => r ++ List.replicate
              ((recKeys rec).filter (fun k => decide (k ∉ t.cols))).length Value.nan)
            ++ [(t.cols ++ (recKeys rec).filter (fun k => decide (k ∉ t.cols))).map
                (fun c => (lookupRec rec c).getD Value.nan)] }
        (Value.str us) = true := by
      apply List.any_eq_true.mpr
      refine ⟨_, List.mem_append_right _ (List.mem_singleton.mpr rfl), hmatchNew⟩
    rw [upsert_present _ rec (by rw [hu]; exact hp1), hu,
      clean_eq_of_resolved rec _ hres, updateMatching_eq_map]
    congr 1
    rw [List.map_append, List.map_map]
    congr 1
    · -- the padded old rows do not match the new item_url and stay untouched
      apply List.map_congr_left
      intro r hrmem
      rw [Function.comp_apply]
      apply rowUpd_of_not_matches
      unfold matchesUrl
      simp only [hj1]
      by_cases hco : "item_url" ∈ t.cols
      · obtain ⟨j0, hj0⟩ := idxOf_mem _ _ hco
        have hleft : idxOf (t.cols ++ (recKeys rec).filter (fun k => decide (k ∉ t.cols)))
            "item_url" = some j0 := idxOf_left _ _ _ _ hj0
        have hjj : j1 = j0 := by
          rw [hj1] at hleft
          exact Option.some_inj.mp hleft
        subst hjj
        rw [getD_append_pad]
        have hallF : t.rows.any (matchesUrl t.cols (Value.str us)) = false := by
          simpa [hasUrl] using hp
        have hrm := List.any_eq_false.mp hallF r hrmem
        unfold matchesUrl at hrm
        simp only [hj0] at hrm
        simpa using hrm
      · have hnone0 : idxOf t.cols "item_url" = none := idxOf_none_of_not_mem _ _ hco
        have := idxOf_append_of_not_mem t.cols
          ((recKeys rec).filter (fun k => decide (k ∉ t.cols))) "item_url" hco
        rw [hj1] at this
        have hge : t.cols.length ≤ j1 := by
          cases hx : idxOf ((recKeys rec).filter (fun k => decide (k ∉ t.cols)))
              "item_url" with
          | none => rw [hx] at this; simp at this
          | some j2 =>
            rw [hx] at this
            simp only [Option.map_some', Option.some_inj] at this
            omega
        have hrlen : r.length = t.cols.length := halign r hrmem
        rw [getD_append_ge _ _ _ (by omega)]
        simp
    · -- the appended row already carries exactly the record values
      simp only [List.map_cons, List.map_nil]
      congr 1
      rw [rowUpd_eq_applyWrites _ _ _ _
        (hcons (t.cols ++ (recKeys rec).filter (fun k => decide (k ∉ t.cols)))) hmatchNew]
      apply applyWrites_id_of_get?
      intro kv hm i hidx
      rw [List.get?_map, idxOf_get? _ _ _ hidx]
      simp [lookupRec_of_mem_nodup rec kv hnd hm]

end Auc2

section DirectionProofs

open Real

theorem pymod_nonneg_360 (a : ℝ) : 0 ≤ pymod a 360 := by
  unfold pymod
  have h1 : (⌊a / 360⌋ : ℝ) ≤ a / 360 := Int.floor_le _
  have h2 : (360 : ℝ) * (a / 360) = a := by field_simp
  nlinarith

theorem pymod_lt_360 (a : ℝ) : pymod a 360 < 360 := by
  unfold pymod
  have h1 : a / 360 < ⌊a / 360⌋ + 1 := Int.lt_floor_add_one _
  have h2 : (360 : ℝ) * (a / 360) = a := by field_simp
  nlinarith

theorem floor_div45_eq (b : ℝ) (k : ℤ) (hk1 : (k : ℝ) * 45 ≤ b + 22.5)
    (hk2 : b + 22.5 < ((k : ℝ) + 1) * 45) : ⌊(b + 22.5) / 45⌋ = k := by
  rw [Int.floor_eq_iff]
  constructor
  · rw [le_div_iff₀ (by norm_num : (0 : ℝ) < 45)]
    exact hk1
  · rw [div_lt_iff₀ (by norm_num : (0 : ℝ) < 45)]
    push_cast
    linarith

theorem bearing_deg_nonneg (olat olng dlat dlng : ℝ) :
    0 ≤ bearing_deg olat olng dlat dlng := pymod_nonneg_360 _

theorem bearing_deg_lt (olat olng dlat dlng : ℝ) :
    bearing_deg olat olng dlat dlng < 360 := pymod_lt_360 _

end DirectionProofs

section DirectionProofs2

open Real

/-- C9: the two direction functions agree on every input up to the evident
label correspondence N to North, NE to Northeast, and so on: the 8-sector
index arithmetic of auc2.py picks the same sector as the explicit threshold
chain of auction.py. -/
theorem direction_functions_equivalent (olat olng dlat dlng : ℝ) :
    labelCorr (auc2_calculate_direction olat olng dlat dlng)
      = auction_calculate_direction olat olng dlat dlng := by
  have h0 := bearing_deg_nonneg olat olng dlat dlng
  have h1 := bearing_deg_lt olat olng dlat dlng
  unfold auc2_calculate_direction auction_calculate_direction
  set b := bearing_deg olat olng dlat dlng with hb
  rcases lt_or_le b 22.5 with h22 | h22
  · rw [floor_div45_eq b 0 (by push_cast; linarith) (by push_cast; linarith),
      if_pos (Or.inr h22)]
    rfl
  · rcases lt_or_le b 67.5 with h67 | h67
    · rw [floor_div45_eq b 1 (by push_cast; linarith) (by push_cast; linarith),
        if_neg (not_or.mpr ⟨by linarith, by linarith⟩), if_pos h67]
      rfl
    · rcases lt_or_le b 112.5 with h112 | h112
      · rw [floor_div45_eq b 2 (by push_cast; linarith) (by push_cast; linarith),
          if_neg (not_or.mpr ⟨by linarith, by linarith⟩), if_neg (by linarith),
          if_pos h112]
        rfl
      · rcases lt_or_le b 157.5 with h157 | h157
        · rw [floor_div45_eq b 3 (by push_cast; linarith) (by push_cast; linarith),
            if_neg (not_or.mpr ⟨by linarith, by linarith⟩), if_neg (by linarith),
            if_neg (by linarith), if_pos h157]
          rfl
        · rcases lt_or_le b 202.5 with h202 | h202
          · rw [floor_div45_eq b 4 (by push_cast; linarith) (by push_cast; linarith),
              if_neg (not_or.mpr ⟨by linarith, by linarith⟩), if_neg (by linarith),
              if_neg (by linarith), if_neg (by linarith), if_pos h202]
            rfl
          · rcases lt_or_le b 247.5 with h247 | h247
            · rw [floor_div45_eq b 5 (by push_cast; linarith) (by push_cast; linarith),
                if_neg (not_or.mpr ⟨by linarith, by linarith⟩), if_neg (by linarith),
                if_neg (by linarith), if_neg (by linarith), if_neg (by linarith),
                if_pos h247]
              rfl
            · rcases lt_or_le b 292.5 with h292 | h292
              · rw [floor_div45_eq b 6 (by push_cast; linarith) (by push_cast; linarith),
                  if_neg (not_or.mpr ⟨by linarith, by linarith⟩), if_neg (by linarith),
                  if_neg (by linarith), if_neg (by linarith), if_neg (by linarith),
                  if_neg (by linarith), if_pos h292]
                rfl
              · rcases lt_or_le b 337.5 with h337 | h337
                · rw [floor_div45_eq b 7 (by push_cast; linarith) (by push_cast; linarith),
                    if_neg (not_or.mpr ⟨by linarith, by linarith⟩), if_neg (by linarith),
                    if_neg (by linarith), if_neg (by linarith), if_neg (by linarith),
                    if_neg (by linarith), if_neg (by linarith)]
                  rfl
                · rw [floor_div45_eq b 8 (by push_cast; linarith) (by push_cast; linarith),
                    if_pos (Or.inl h337)]
                  rfl

end DirectionProofs2

section C6Proofs

open Real

theorem bearing_deg_unfold (olat olng dlat dlng : ℝ) :
    bearing_deg olat olng dlat dlng
      = pymod (atan2 (Real.sin (deg2rad (dlng - olng)) * Real.cos (deg2rad dlat))
          (Real.cos (deg2rad olat) * Real.sin (deg2rad dlat)
            - Real.sin (deg2rad olat) * Real.cos (deg2rad dlat)
              * Real.cos (deg2rad (dlng - olng)))
          * 180 / Real.pi + 360) 360 := rfl

theorem C6_bearing :
    0 ≤ bearing_deg 51.0504 (-114.0625) 53.5461 (-113.4938) ∧
    bearing_deg 51.0504 (-114.0625) 53.5461 (-113.4938) < 22.5 := by
  have hπl : (3.141592 : ℝ) < Real.pi := Real.pi_gt_d6
  have hπu : Real.pi < 3.141593 := Real.pi_lt_d6
  have hπ0 : (0 : ℝ) < Real.pi := by linarith
  rw [bearing_deg_unfold]
  set φ1 : ℝ := deg2rad 51.0504 with hφ1def
  set φ2 : ℝ := deg2rad 53.5461 with hφ2def
  set Δ : ℝ := deg2rad ((-113.4938 : ℝ) - (-114.0625 : ℝ)) with hΔdef
  have hφ1eq : φ1 = 51.0504 * Real.pi / 180 := rfl
  have hφ2eq : φ2 = 53.5461 * Real.pi / 180 := rfl
  have hΔeq : Δ = 0.5687 * Real.pi / 180 := by
    rw [hΔdef]
    unfold deg2rad
    ring
  have hΔ0 : 0 < Δ := by
    rw [hΔeq]
    positivity
  have hΔu : Δ < 0.0099257 := by
    rw [hΔeq]
    linarith
  have hΔpi : Δ < Real.pi := by
    rw [hΔeq]
    linarith
  have hφ1pos : 0 < φ1 := by
    rw [hφ1eq]
    positivity
  have hφ1pi : φ1 ≤ Real.pi := by
    rw [hφ1eq]
    linarith
  have hφ2pos : 0 < φ2 := by
    rw [hφ2eq]
    positivity
  have hφ2half : φ2 < Real.pi / 2 := by
    rw [hφ2eq]
    linarith
  have hdeq : φ2 - φ1 = 2.4957 * Real.pi / 180 := by
    rw [hφ1eq, hφ2eq]
    ring
  have hd0 : 0 < φ2 - φ1 := by
    rw [hdeq]
    positivity
  have hd1 : φ2 - φ1 ≤ 1 := by
    rw [hdeq]
    linarith
  have hdl : (0.0435581 : ℝ) < φ2 - φ1 := by
    rw [hdeq]
    linarith
  have hdu : φ2 - φ1 < 0.0435582 := by
    rw [hdeq]
    linarith
  have hsind : (0.0435374 : ℝ) < Real.sin (φ2 - φ1) := by
    have hcube := Real.sin_gt_sub_cube hd0 hd1
    have hc3 : (φ2 - φ1) ^ 3 < (0.0435582 : ℝ) ^ 3 :=
      pow_lt_pow_left₀ hdu (le_of_lt hd0) (by norm_num)
    have hc3n : ((0.0435582 : ℝ)) ^ 3 < 0.0000827 := by norm_num
    linarith
  have hsinφ1 : 0 ≤ Real.sin φ1 :=
    Real.sin_nonneg_of_nonneg_of_le_pi (le_of_lt hφ1pos) hφ1pi
  have hcosφ2pos : 0 < Real.cos φ2 :=
    Real.cos_pos_of_mem_Ioo ⟨by linarith, hφ2half⟩
  have hsinΔpos : 0 < Real.sin Δ := Real.sin_pos_of_pos_of_lt_pi hΔ0 hΔpi
  have hcosΔ : Real.cos Δ ≤ 1 := Real.cos_le_one Δ
  set y : ℝ := Real.sin Δ * Real.cos φ2 with hydef
  set x : ℝ := Real.cos φ1 * Real.sin φ2 - Real.sin φ1 * Real.cos φ2 * Real.cos Δ with hxdef
  have hxid : x = Real.sin (φ2 - φ1) + Real.sin φ1 * Real.cos φ2 * (1 - Real.cos Δ) := by
    rw [hxdef, Real.sin_sub]
    ring
  have hxge : Real.sin (φ2 - φ1) ≤ x := by
    rw [hxid]
    linarith [mul_nonneg (mul_nonneg hsinφ1 (le_of_lt hcosφ2pos))
      (by linarith : (0 : ℝ) ≤ 1 - Real.cos Δ)]
  have hxl : (0.0435374 : ℝ) < x := by linarith
  have hx0 : 0 < x := by linarith
  have hy0 : 0 < y := mul_pos hsinΔpos hcosφ2pos
  have hyu : y < 0.0099257 := by
    have hy1 : y ≤ Real.sin Δ :=
      mul_le_of_le_one_right (le_of_lt hsinΔpos) (Real.cos_le_one φ2)
    have hy2 : Real.sin Δ < Δ := Real.sin_lt hΔ0
    linarith
  have htnn : 0 ≤ y / x := div_nonneg (le_of_lt hy0) (le_of_lt hx0)
  have ht : y / x < 0.229 := by
    rw [div_lt_iff₀ hx0]
    linarith
  have harc0 : 0 ≤ Real.arctan (y / x) := by
    have := Real.arctan_strictMono.monotone htnn
    rwa [Real.arctan_zero] at this
  have harc : Real.arctan (y / x) < Real.pi / 8 := by
    rcases eq_or_lt_of_le htnn with heq | hpos
    · rw [← heq, Real.arctan_zero]
      linarith
    · have hapos : 0 < Real.arctan (y / x) := by
        have := Real.arctan_strictMono hpos
        rwa [Real.arctan_zero] at this
      have hlt : Real.arctan (y / x) < Real.tan (Real.arctan (y / x)) :=
        Real.lt_tan hapos (Real.arctan_lt_pi_div_two _)
      rw [Real.tan_arctan] at hlt
      linarith
  have hatan2 : atan2 y x = Real.arctan (y / x) := by
    unfold atan2
    rw [if_pos hx0]
  have hdeg0 : 0 ≤ atan2 y x * 180 / Real.pi := by
    rw [hatan2]
    positivity
  have hdeg1 : atan2 y x * 180 / Real.pi < 22.5 := by
    rw [hatan2, div_lt_iff₀ hπ0]
    linarith
  have hfl : ⌊(atan2 y x * 180 / Real.pi + 360) / 360⌋ = 1 := by
    rw [Int.floor_eq_iff]
    constructor
    · rw [le_div_iff₀ (by norm_num : (0 : ℝ) < 360)]
      push_cast
      linarith
    · rw [div_lt_iff₀ (by norm_num : (0 : ℝ) < 360)]
      push_cast
      linarith
  have hpm : pymod (atan2 y x * 180 / Real.pi + 360) 360 = atan2 y x * 180 / Real.pi := by
    unfold pymod
    rw [hfl]
    push_cast
    ring
  rw [hpm]
  exact ⟨hdeg0, hdeg1⟩

end C6Proofs

section C6Proofs2

open Real

theorem direction_calgary_edmonton :
    auc2_calculate_direction 51.0504 (-114.0625) 53.5461 (-113.4938) = "N" ∧
    auction_calculate_direction 51.0504 (-114.0625) 53.5461 (-113.4938) = "North" := by
  obtain ⟨h0, h1⟩ := C6_bearing
  unfold auc2_calculate_direction auction_calculate_direction
  constructor
  · rw [floor_div45_eq _ 0 (by push_cast; linarith) (by push_cast; linarith)]
    rfl
  · rw [if_pos (Or.inr h1)]

end C6Proofs2

namespace Auc2

/-- C1 (counterexample to the original claim): with the sentinel cached for
the address, the claim asserts the next call returns (None, None) without any
provider call; instead the call re-invokes Nominatim and returns its
coordinates. -/
theorem sentinel_cache_hit_counterexample :
    ¬ ((geocode_address (some "9 Av SE, Calgary") (fun _ => some (51, -114)) (fun _ => none)
        [("9 Av SE, Calgary", { geocode := some .sentinel, route := [] })]).res = none ∧
       (geocode_address (some "9 Av SE, Calgary") (fun _ => some (51, -114)) (fun _ => none)
        [("9 Av SE, Calgary", { geocode := some .sentinel, route := [] })]).calls = []) := by
  decide

/-- C1 witness: the amended theorem applied at a concrete sentinel-cached
address and a concrete sentinel-cached route. -/
theorem sentinel_reattempted_witness :
    (geocode_address (some "9 Av SE, Calgary") (fun _ => none) (fun _ => none)
      [("9 Av SE, Calgary", { geocode := some .sentinel, route := [] })]).calls ≠ [] ∧
    (∃ r, calculate_driving_time_osrm 51 (-114) 53 (-113)
        [("9 Av SE, Calgary", { geocode := none, route := [("Calgary", .sentinel)] })]
        ("9 Av SE, Calgary" ++ "|" ++ "calgary") (fun _ _ _ _ => none) (fun _ _ _ _ => "N")
        = some r ∧ r.osrmCalls = 1) :=
  ⟨sentinel_reattempted.1 "9 Av SE, Calgary" _ _ _ (by decide) (by decide) (by decide),
   sentinel_reattempted.2 51 (-114) 53 (-113) _ "9 Av SE, Calgary" "calgary" _ _
     (by decide) (by decide)⟩

/-- C4 (counterexample to the original claim): the address starts with the
ambiguous phrase tba, yet after stripping, the remainder is a usable address,
so the provider chain IS invoked and its coordinates returned. -/
theorem ambiguous_prefix_counterexample :
    ¬ ((geocode_address (some "tba 123 Main St") (fun _ => some (1, 2)) (fun _ => none)
        []).calls = [] ∧
       (geocode_address (some "tba 123 Main St") (fun _ => some (1, 2)) (fun _ => none)
        []).res = none) := by
  decide

/-- C4 witness: the amended theorem applied at the concrete address TBA. -/
theorem ambiguous_shortcircuit_witness :
    (geocode_address (some "TBA") (fun _ => some (3, 4)) (fun _ => none) []).res = none ∧
    (geocode_address (some "TBA") (fun _ => some (3, 4)) (fun _ => none) []).calls = [] ∧
    geoOf (geocode_address (some "TBA") (fun _ => some (3, 4)) (fun _ => none) []).cache "TBA"
      = some .sentinel :=
  ambiguous_shortcircuit "TBA" _ _ [] (by decide) (Or.inl (by decide))

/-- C5 witness: the classification theorem applied at zero remaining time. -/
theorem remaining_classification_witness :
    remainingStr (.parsed 0) = "Ended" ∧
    (itemStep none false (.parsed 0)).notified = false ∧
    (itemStep none false (.parsed 0)).deferred = false :=
  remaining_classification.1 0 (by decide) none

/-- C10 witness: the theorem applied at a whitespace-only address. -/
theorem empty_address_sentinel_witness :
    (geocode_address (some "   ") (fun _ => some (1, 1)) (fun _ => none) []).res = none ∧
    (geocode_address (some "   ") (fun _ => some (1, 1)) (fun _ => none) []).calls = [] ∧
    geoOf (geocode_address (some "   ") (fun _ => some (1, 1)) (fun _ => none) []).cache
      ((some "   ").getD "") = some .sentinel :=
  empty_address_sentinel (some "   ") (fun _ => some (1, 1)) (fun _ => none) [] (by decide)

/-- C7 witness: the idempotence theorem applied to a concrete one-row table
and a concrete record. -/
theorem upsert_idempotent_witness :
    upsert (upsert { cols := ["item_url", "price"], rows := [[Value.str "a", Value.int 1]] }
        [("item_url", Value.str "b"), ("price", Value.int 2)])
        [("item_url", Value.str "b"), ("price", Value.int 2)]
      = upsert { cols := ["item_url", "price"], rows := [[Value.str "a", Value.int 1]] }
        [("item_url", Value.str "b"), ("price", Value.int 2)] :=
  upsert_idempotent _ _ "b" (by decide) (by decide) (by decide) (by decide)

end Auc2

namespace Auction

/-- C8 witness: the theorem applied to one new category-A row over an
existing category-B row. -/
theorem save_preserves_other_categories_witness :
    save_properties_to_excel [[("MLS Number", Value.str "m1")]]
        [[("MLS Number", Value.str "m0"), ("Property Category", Value.str "B")]] "A"
      = some (([[("MLS Number", Value.str "m1")]].map
          (fun p => setKey p "Property Category" (Value.str "A")))
        ++ [[("MLS Number", Value.str "m0"),
              ("Property Category", Value.str "B")]].filter (isCat "A")
        ++ [[("MLS Number", Value.str "m0"),
              ("Property Category", Value.str "B")]].filter (fun r => !(isCat "A" r))) ∧
    (([[("MLS Number", Value.str "m1")]].map
          (fun p => setKey p "Property Category" (Value.str "A")))
        ++ [[("MLS Number", Value.str "m0"),
              ("Property Category", Value.str "B")]].filter (isCat "A")
        ++ [[("MLS Number", Value.str "m0"),
              ("Property Category", Value.str "B")]].filter
            (fun r => !(isCat "A" r))).filter (fun r => !(isCat "A" r))
      = [[("MLS Number", Value.str "m0"),
            ("Property Category", Value.str "B")]].filter (fun r => !(isCat "A" r)) :=
  save_preserves_other_categories [[("MLS Number", Value.str "m1")]]
    [[("MLS Number", Value.str "m0"), ("Property Category", Value.str "B")]] "A" (by decide)

end Auction

/-- C6 (counterexample to the original claim): from Calgary (51.0504,
-114.0625) to Edmonton (53.5461, -113.4938) the initial great-circle bearing
is about 8 degrees, inside the N sector, so neither direction function
returns a northeasterly label. -/
theorem calgary_edmonton_not_northeasterly :
    auc2_calculate_direction 51.0504 (-114.0625) 53.5461 (-113.4938) ≠ "NE" ∧
    auction_calculate_direction 51.0504 (-114.0625) 53.5461 (-113.4938) ≠ "Northeast" := by
  obtain ⟨h1, h2⟩ := direction_calgary_edmonton
  constructor
  · rw [h1]
    decide
  · rw [h2]
    decide

/-- C6 (amended): for the Calgary to Edmonton pair the direction functions
return the northerly labels N / North, consistent with the great-circle
initial-bearing formula quantized to the 8-point compass (the bearing lies
in [0, 22.5)). -/
theorem calgary_edmonton_direction_north :
    auc2_calculate_direction 51.0504 (-114.0625) 53.5461 (-113.4938) = "N" ∧
    auction_calculate_direction 51.0504 (-114.0625) 53.5461 (-113.4938) = "North" :=
  direction_calgary_edmonton
